import Mathlib

/-!
Verification of the night-scene detection core of `night_detect.py`.

The per-frame measurements, timestamps and thresholds that the Python code
handles as floats are modelled as exact rationals (`ℚ`); parsed luminance
values (`mean:[<int>`) are naturals.  Python's in-place `list.sort()` is
modelled by `List.mergeSort` with the decidable `≤` test, and its effect on
the caller's list is made explicit where a claim is about that effect.
-/

/-- A time interval `(start, end)` in seconds, used both for night scenes and
for credit regions, exactly as the Python code uses 2-tuples. -/
abbrev Scene : Type := ℚ × ℚ

/-- Python's `list.sort()` on a list of rationals: stable ascending sort. -/
def pySort (l : List ℚ) : List ℚ :=
  l.insertionSort (fun a b => a ≤ b)

/-- The sweep loop of `create_scene_segments` (night_detect.py lines 537–550):
state `(s, e)` is the currently open interval `[current_start, current_end]`;
a timestamp `t` with `t - e ≤ min_duration * 2` extends the interval, otherwise
the interval is closed (kept only when `e - s ≥ min_duration`) and a fresh
interval `[t, t]` is opened.  The final open interval is closed the same way. -/
def segmentSweep (min_duration : ℚ) : List ℚ → ℚ → ℚ → List Scene
  | [], s, e => if min_duration ≤ e - s then [(s, e)] else []
  | t :: rest, s, e =>
    if t - e ≤ min_duration * 2 then
      segmentSweep min_duration rest s t
    else
      (if min_duration ≤ e - s then [(s, e)] else [])
        ++ segmentSweep min_duration rest t t

/-- `create_scene_segments(timestamps, min_duration)` (night_detect.py lines
526–554): returns `[]` on empty input, otherwise sorts the timestamps
ascending and runs the sweep starting from the first timestamp. -/
def create_scene_segments (timestamps : List ℚ) (min_duration : ℚ) : List Scene :=
  match pySort timestamps with
  | [] => []
  | t :: rest => segmentSweep min_duration rest t t

/-- The caller's `timestamps` list as it stands after `create_scene_segments`
returns.  The Python function mutates its argument: it calls
`timestamps.sort()` in place, a line reached exactly when the list is
non-empty (the empty list returns early, before the sort). -/
def create_scene_segments_post (timestamps : List ℚ) : List ℚ :=
  if timestamps = [] then timestamps else pySort timestamps

/-- Flattening a list of intervals into a timestamp list by listing each
interval's endpoints in order (used to state the spec's idempotence
property for the segmenter). -/
def flattenScenes (scenes : List Scene) : List ℚ :=
  scenes.flatMap (fun p => [p.1, p.2])

/-- One line of the FFmpeg analysis text, abstracted to the three regex
matches the code reads from it: `showinfo` carries `(pts_time, mean luminance)`
when the line matches `Parsed_showinfo.*pts_time:(f).*mean:[(n)`; `edgeVal`
carries the value when the line matches `edge.*:(f)`; `audioRms` carries the
value when the line matches `lavfi.astats.Overall.RMS_level=(f)`.  A line
matching none of the patterns has all three fields `none`. -/
structure AnalysisLine where
  showinfo : Option (ℚ × ℕ)
  edgeVal : Option ℚ
  audioRms : Option ℚ
deriving DecidableEq

/-- A line that matches none of the patterns (also stands for an
out-of-range index). -/
def blankLine : AnalysisLine := ⟨none, none, none⟩

/-- The line at index `i`, out-of-range reads giving a non-matching line
(the Python windows are clamped to the file, so such reads never happen
there; this total version makes the windows definable directly). -/
def lineAt (lines : List AnalysisLine) (i : ℕ) : AnalysisLine :=
  lines.getD i blankLine

/-- `extract_basic_night_timestamps` (night_detect.py lines 307–325): one
pass over the lines, emitting `pts_time` of every showinfo line whose mean
luminance is strictly below the threshold. -/
def extract_basic_night_timestamps (lines : List AnalysisLine) (luma_threshold : ℤ) : List ℚ :=
  lines.filterMap fun ln =>
    match ln.showinfo with
    | some (t, luma) => if (luma : ℤ) < luma_threshold then some t else none
    | none => none

/-- A frame record of the establishing-shot strategy: timestamp, mean
luminance and the edge complexity found near the frame's line. -/
structure EFrame where
  timestamp : ℚ
  luma : ℕ
  edges : ℚ
deriving DecidableEq

/-- The edge-complexity search of `extract_establishing_shot_timestamps`
(night_detect.py lines 345–352): scan lines `j ∈ [max 0 (i-2), min len (i+3))`
in order and return the first edge value found, defaulting to `0`. -/
def edgeWindow (lines : List AnalysisLine) (i : ℕ) : ℚ :=
  match (List.range' (i - 2) (min lines.length (i + 3) - (i - 2))).findSome?
      (fun j => (lineAt lines j).edgeVal) with
  | some v => v
  | none => 0

/-- The frame records collected by `extract_establishing_shot_timestamps`
(night_detect.py lines 339–360): one per showinfo line, in line order. -/
def establishingFrames (lines : List AnalysisLine) : List EFrame :=
  (List.range lines.length).filterMap fun i =>
    match (lineAt lines i).showinfo with
    | some (t, luma) => some ⟨t, luma, edgeWindow lines i⟩
    | none => none

/-- `edge_values` (night_detect.py line 366): the edge complexities of the
frames whose edge complexity is strictly positive. -/
def edgeValues (lines : List AnalysisLine) : List ℚ :=
  (establishingFrames lines).filterMap fun f =>
    if 0 < f.edges then some f.edges else none

/-- `edge_threshold` (night_detect.py lines 366–373): `1.2` times the mean
of the positive edge values, or `0` when there are none. -/
def edgeThreshold (lines : List AnalysisLine) : ℚ :=
  if edgeValues lines = [] then 0
  else (edgeValues lines).sum / ((edgeValues lines).length : ℚ) * (mkRat 6 5)

/-- `extract_establishing_shot_timestamps` (night_detect.py lines 327–387):
a frame's timestamp is emitted when the frame is dark and, if the edge
threshold is positive, its edge complexity reaches the threshold. -/
def extract_establishing_shot_timestamps (lines : List AnalysisLine)
    (luma_threshold : ℤ) : List ℚ :=
  (establishingFrames lines).filterMap fun f =>
    if (f.luma : ℤ) < luma_threshold ∧
        (if 0 < edgeThreshold lines then edgeThreshold lines ≤ f.edges else True)
    then some f.timestamp else none

/-- A frame record of the audio-correlated strategy: timestamp, mean
luminance and the paired audio RMS level in dB. -/
structure AFrame where
  timestamp : ℚ
  luma : ℕ
  audio_rms : ℚ
deriving DecidableEq

/-- The audio search of `extract_audio_correlated_timestamps` (night_detect.py
lines 417–422): scan lines `j ∈ [max 0 (i-5), min len (i+6))` in order and
return the first audio RMS value found, if any. -/
def audioWindow (lines : List AnalysisLine) (i : ℕ) : Option ℚ :=
  (List.range' (i - 5) (min lines.length (i + 6) - (i - 5))).findSome?
    fun j => (lineAt lines j).audioRms

/-- The pairing loop of `extract_audio_correlated_timestamps` (night_detect.py
lines 404–432).  The state is the pending frame (`current_timestamp`,
`current_luma`): a showinfo line overwrites it; while a frame is pending, the
audio window anchored at the scanned line is searched, and on a hit the frame
is appended to the pool and the state cleared. -/
def audioPairLoop (lines : List AnalysisLine) : List ℕ → Option (ℚ × ℕ) → List AFrame
  | [], _ => []
  | i :: rest, st =>
    let st1 : Option (ℚ × ℕ) :=
      match (lineAt lines i).showinfo with
      | some p => some p
      | none => st
    match st1 with
    | some (t, l) =>
      match audioWindow lines i with
      | some rms => ⟨t, l, rms⟩ :: audioPairLoop lines rest none
      | none => audioPairLoop lines rest (some (t, l))
    | none => audioPairLoop lines rest none

/-- The audio-paired candidate pool `frame_data` of
`extract_audio_correlated_timestamps`. -/
def audioFrameData (lines : List AnalysisLine) : List AFrame :=
  audioPairLoop lines (List.range lines.length) none

/-- The `audio_mode` configuration value (`choices` of the CLI flag). -/
inductive AudioMode
  | quiet
  | loud
  | both
deriving DecidableEq

/-- The audio criterion of `extract_audio_correlated_timestamps`
(night_detect.py lines 437–450): `quiet` means RMS strictly below the quiet
threshold, `loud` strictly above the loud threshold, `both` either. -/
def audioMatches (mode : AudioMode) (audio_rms quiet_threshold loud_threshold : ℚ) : Bool :=
  match mode with
  | .quiet => decide (audio_rms < quiet_threshold)
  | .loud => decide (loud_threshold < audio_rms)
  | .both => decide (audio_rms < quiet_threshold) || decide (loud_threshold < audio_rms)

/-- `extract_audio_correlated_timestamps` (night_detect.py lines 389–459):
pair frames with audio, then emit the timestamps of the dark frames whose
audio level matches the configured mode. -/
def extract_audio_correlated_timestamps (lines : List AnalysisLine)
    (luma_threshold : ℤ) (quiet_threshold loud_threshold : ℚ)
    (audio_mode : AudioMode) : List ℚ :=
  (audioFrameData lines).filterMap fun f =>
    if (f.luma : ℤ) < luma_threshold ∧
        audioMatches audio_mode f.audio_rms quiet_threshold loud_threshold
    then some f.timestamp else none

/-- Python's lexicographic order on 2-tuples, used by `regions.sort()` in
`merge_regions`. -/
def lexLE (a b : Scene) : Prop :=
  a.1 < b.1 ∨ (a.1 = b.1 ∧ a.2 ≤ b.2)

instance : DecidableRel lexLE := fun a b => by
  unfold lexLE; infer_instance

/-- The merging loop of `merge_regions` (night_detect.py lines 486–493):
`cur` is `merged[-1]`; a region starting at or before `cur`'s end is folded
into it (end takes the max), otherwise `cur` is emitted and the region
becomes current. -/
def mergeLoop : Scene → List Scene → List Scene
  | cur, [] => [cur]
  | cur, (s, e) :: rest =>
    if s ≤ cur.2 then mergeLoop (cur.1, max cur.2 e) rest
    else cur :: mergeLoop (s, e) rest

/-- `merge_regions` (night_detect.py lines 483–494): sort the regions
(Python tuple order) and fold overlapping or touching ones together. -/
def merge_regions (regions : List Scene) : List Scene :=
  match regions.insertionSort lexLE with
  | [] => []
  | r :: rest => mergeLoop r rest

/-- Opening-credit candidates (night_detect.py lines 472–474): text regions
starting in the first tenth of the video. -/
def openingCandidates (text_regions : List Scene) (video_duration : ℚ) : List Scene :=
  text_regions.filter fun r => r.1 < video_duration * (mkRat 1 10)

/-- Closing-credit candidates (night_detect.py lines 475–477): text regions
not taken as opening candidates (the code's `elif`) and starting after 85%
of the video. -/
def closingCandidates (text_regions : List Scene) (video_duration : ℚ) : List Scene :=
  text_regions.filter fun r =>
    ¬(r.1 < video_duration * (mkRat 1 10)) ∧ video_duration * (mkRat 17 20) < r.1

/-- `all_credits` (night_detect.py line 498): merged opening regions followed
by merged closing regions. -/
def allCredits (text_regions : List Scene) (video_duration : ℚ) : List Scene :=
  merge_regions (openingCandidates text_regions video_duration)
    ++ merge_regions (closingCandidates text_regions video_duration)

/-- The overlap test of the scene loop (night_detect.py lines 509–515): a
scene overlaps the credit list when some credit region fails
`scene_end ≤ credit_start or scene_start ≥ credit_end`. -/
def overlapsCredit (sc : Scene) (credits : List Scene) : Bool :=
  credits.any fun c => !(decide (sc.2 ≤ c.1) || decide (c.2 ≤ sc.1))

/-- `filter_credits_from_scenes` (night_detect.py lines 461–524): an empty
text-region list passes the scenes through; otherwise every scene
overlapping a credit region is removed whole. -/
def filter_credits_from_scenes (scenes : List Scene) (text_regions : List Scene)
    (video_duration : ℚ) : List Scene :=
  if text_regions = [] then scenes
  else scenes.filter fun sc =>
    !(overlapsCredit sc (allCredits text_regions video_duration))

/-- Spec-side statement of the audio criterion (§4.2 `audio_correlated` of
the spec), written from the spec's words to compare with the code's Boolean
dispatch: `quiet` → `audio_rms_db < quiet_threshold`, `loud` →
`audio_rms_db > loud_threshold`, `both` → either condition. -/
def audioCriterionSpec (mode : AudioMode)
    (audio_rms quiet_threshold loud_threshold : ℚ) : Prop :=
  match mode with
  | .quiet => audio_rms < quiet_threshold
  | .loud => loud_threshold < audio_rms
  | .both => audio_rms < quiet_threshold ∨ loud_threshold < audio_rms

/-- Concrete analysis text for the audio-window counterexample: a frame line
at index 0 (timestamp 10, luminance 0) and a single audio line at index 7,
more than five lines past the frame line. -/
def c3lines : List AnalysisLine :=
  [⟨some (10, 0), none, none⟩, blankLine, blankLine, blankLine,
   blankLine, blankLine, blankLine, ⟨none, none, some (-50)⟩]

/-- Concrete analysis text with one frame line and no audio line at all. -/
def c3wlines : List AnalysisLine := [⟨some (10, 0), none, none⟩, blankLine]

/-- Concrete analysis text of the spec's Scenario D: a dark frame at t = 10
followed by an audio RMS line reading −50 dB. -/
def scenDlines : List AnalysisLine := [⟨some (10, 0), none, none⟩, ⟨none, none, some (-50)⟩]

/-- Concrete analysis text with two frame lines carrying edge data, one dark
and one bright. -/
def c4lines : List AnalysisLine :=
  [⟨some (1, 0), some 2, none⟩, ⟨some (2, 50), some 4, none⟩]

/-! ## Invariants of the segmentation sweep -/

/-- Invariant of the sweep loop: starting from an open interval `[s, e]` with
`s ≤ e` and the remaining sorted timestamps all at or above `e`, every
produced scene lasts at least `min_duration` and starts at or after `s`, and
consecutive scenes are separated by strictly more than the gap tolerance. -/
theorem segmentSweep_inv (d : ℚ) :
    ∀ (ts : List ℚ) (s e : ℚ), s ≤ e → ts.Sorted (· ≤ ·) → (∀ t ∈ ts, e ≤ t) →
    (∀ p ∈ segmentSweep d ts s e, d ≤ p.2 - p.1 ∧ s ≤ p.1) ∧
    (segmentSweep d ts s e).Pairwise (fun a b => a.2 + d * 2 < b.1) := by
  intro ts
  induction ts with
  | nil =>
    intro s e _ _ _
    simp only [segmentSweep]
    split_ifs with hd0
    · refine ⟨?_, List.pairwise_singleton _ _⟩
      intro p hp
      simp only [List.mem_singleton] at hp
      subst hp
      exact ⟨hd0, le_refl s⟩
    · exact ⟨fun p hp => absurd hp (List.not_mem_nil p), List.Pairwise.nil⟩
  | cons t rest ih =>
    intro s e hse hsort hlb
    have het : e ≤ t := hlb t (List.mem_cons_self t rest)
    have hsort2 : rest.Sorted (· ≤ ·) := hsort.of_cons
    have hlbrest : ∀ r ∈ rest, t ≤ r := List.rel_of_sorted_cons hsort
    simp only [segmentSweep]
    by_cases hgap : t - e ≤ d * 2
    · rw [if_pos hgap]
      exact ih s t (le_trans hse het) hsort2 hlbrest
    · rw [if_neg hgap]
      push_neg at hgap
      have hrec := ih t t le_rfl hsort2 hlbrest
      have hbound : ∀ b ∈ segmentSweep d rest t t, e + d * 2 < b.1 := by
        intro b hb
        rcases hrec.1 b hb with ⟨_, htb⟩
        have : e + d * 2 < t := by linarith
        exact lt_of_lt_of_le this htb
      by_cases hd0 : d ≤ e - s
      · rw [if_pos hd0]
        simp only [List.singleton_append]
        constructor
        · intro p hp
          rcases List.mem_cons.mp hp with rfl | hp2
          · exact ⟨hd0, le_rfl⟩
          · rcases hrec.1 p hp2 with ⟨hdp, htp⟩
            exact ⟨hdp, le_trans (le_trans hse het) htp⟩
        · exact List.pairwise_cons.mpr ⟨hbound, hrec.2⟩
      · rw [if_neg hd0]
        simp only [List.nil_append]
        constructor
        · intro p hp
          rcases hrec.1 p hp with ⟨hdp, htp⟩
          exact ⟨hdp, le_trans (le_trans hse het) htp⟩
        · exact hrec.2

/-- The two facts about `create_scene_segments` output that everything else
rests on: every scene lasts at least `min_duration`, and consecutive scenes
are separated by strictly more than the gap tolerance `min_duration * 2`. -/
theorem create_scene_segments_facts (timestamps : List ℚ) (d : ℚ) :
    (∀ p ∈ create_scene_segments timestamps d, d ≤ p.2 - p.1) ∧
    (create_scene_segments timestamps d).Pairwise (fun a b => a.2 + d * 2 < b.1) := by
  unfold create_scene_segments
  cases hms : pySort timestamps with
  | nil => simp
  | cons t rest =>
    have hsorted : (pySort timestamps).Sorted (· ≤ ·) := List.sorted_insertionSort _ _
    rw [hms] at hsorted
    obtain ⟨h1, h2⟩ := segmentSweep_inv d rest t t le_rfl hsorted.of_cons
      (List.rel_of_sorted_cons hsorted)
    exact ⟨fun p hp => (h1 p hp).1, h2⟩

/-- C2: for every timestamp list and every `min_duration > 0`, the output of
`create_scene_segments` is sorted by start time, pairwise non-overlapping,
and every interval in it satisfies `end − start ≥ min_duration` (the output
may be empty — the invariants hold vacuously then). -/
theorem c2_segmenter_invariants (timestamps : List ℚ) (min_duration : ℚ)
    (hd : 0 < min_duration) :
    (∀ p ∈ create_scene_segments timestamps min_duration, min_duration ≤ p.2 - p.1) ∧
    (create_scene_segments timestamps min_duration).Pairwise (fun a b => a.1 ≤ b.1) ∧
    (create_scene_segments timestamps min_duration).Pairwise (fun a b => a.2 ≤ b.1) := by
  obtain ⟨h1, h2⟩ := create_scene_segments_facts timestamps min_duration
  refine ⟨h1, ?_, ?_⟩
  · refine h2.imp_of_mem ?_
    intro a b ha hb hab
    have hda := h1 a ha
    simp only at hab ⊢
    linarith
  · refine h2.imp_of_mem ?_
    intro a b _ _ hab
    simp only at hab ⊢
    linarith

/-- C2 witness: the invariants at the concrete input `[0, 1, 2]`,
`min_duration = 1`. -/
theorem c2_witness :
    (∀ p ∈ create_scene_segments [0, 1, 2] 1, (1:ℚ) ≤ p.2 - p.1) ∧
    (create_scene_segments [0, 1, 2] 1).Pairwise (fun a b => a.1 ≤ b.1) ∧
    (create_scene_segments [0, 1, 2] 1).Pairwise (fun a b => a.2 ≤ b.1) :=
  c2_segmenter_invariants [0, 1, 2] 1 (by decide)

/-- C6: segmenting the timestamps `[1.0, 1.4, 1.8, 5.0]` with
`min_duration = 1.0` yields the empty scene list: the run `1.0–1.8` merges
under the gap tolerance `2.0` but its span `0.8 < 1.0` is dropped, and the
lone timestamp `5.0` gives a zero-length interval that is also dropped. -/
theorem c6_scenarioA : create_scene_segments [1, mkRat 7 5, mkRat 9 5, 5] 1 = [] := by
  with_unfolding_all decide

/-- C10: `create_scene_segments` sorts the caller's list in place — after a
call on any non-empty list, the list the caller still holds is the ascending
reordering of the original, and so differs from the original whenever the
original was not already sorted. -/
theorem c10_inplace_sort (ts : List ℚ) (h : ts ≠ []) :
    (create_scene_segments_post ts).Sorted (· ≤ ·) ∧
    (create_scene_segments_post ts).Perm ts ∧
    (¬ ts.Sorted (· ≤ ·) → create_scene_segments_post ts ≠ ts) := by
  unfold create_scene_segments_post pySort
  rw [if_neg h]
  refine ⟨List.sorted_insertionSort _ ts, List.perm_insertionSort _ ts, ?_⟩
  intro hns heq
  exact hns (heq ▸ List.sorted_insertionSort _ ts)

/-- C10 witness: the unsorted caller list `[2, 1]` comes back as `[1, 2]`. -/
theorem c10_witness :
    (create_scene_segments_post [2, 1]).Sorted (· ≤ ·) ∧
    (create_scene_segments_post [2, 1]).Perm [2, 1] ∧
    (¬ ([2, 1] : List ℚ).Sorted (· ≤ ·) → create_scene_segments_post [2, 1] ≠ [2, 1]) :=
  c10_inplace_sort [2, 1] (List.cons_ne_nil 2 [1])

/-! ## Resegmenting flattened output (the spec's idempotence property) -/

theorem flattenScenes_nil : flattenScenes [] = [] := rfl

theorem flattenScenes_cons (a : Scene) (l : List Scene) :
    flattenScenes (a :: l) = a.1 :: a.2 :: flattenScenes l := rfl

/-- Every flattened timestamp is an endpoint of one of the scenes. -/
theorem flattenScenes_mem {l : List Scene} {x : ℚ} (hx : x ∈ flattenScenes l) :
    ∃ p ∈ l, x = p.1 ∨ x = p.2 := by
  simp only [flattenScenes, List.mem_flatMap, List.mem_cons, List.mem_singleton,
    List.not_mem_nil, or_false] at hx
  exact hx

/-- Flattening scenes that last at least `d > 0` and are separated by more
than `d * 2` gives an ascending timestamp list. -/
theorem flattenScenes_sorted (d : ℚ) (hd : 0 < d) :
    ∀ l : List Scene, (∀ p ∈ l, d ≤ p.2 - p.1) →
    l.Pairwise (fun a b => a.2 + d * 2 < b.1) →
    (flattenScenes l).Sorted (· ≤ ·) := by
  intro l
  induction l with
  | nil => intro _ _; exact List.sorted_nil
  | cons a rest ih =>
    intro hspan hpair
    obtain ⟨hhead, hpair2⟩ := List.pairwise_cons.mp hpair
    have hrest := ih (fun p hp => hspan p (List.mem_cons_of_mem a hp)) hpair2
    rw [flattenScenes_cons]
    have hspana := hspan a (List.mem_cons_self a rest)
    refine List.sorted_cons.mpr ⟨?_, List.sorted_cons.mpr ⟨?_, hrest⟩⟩
    · intro b hb
      rcases List.mem_cons.mp hb with rfl | hb2
      · linarith
      · rcases flattenScenes_mem hb2 with ⟨p, hp, hcase⟩
        have hgap := hhead p hp
        have hspanp := hspan p (List.mem_cons_of_mem a hp)
        rcases hcase with rfl | rfl <;> linarith
    · intro b hb
      rcases flattenScenes_mem hb with ⟨p, hp, hcase⟩
      have hgap := hhead p hp
      have hspanp := hspan p (List.mem_cons_of_mem a hp)
      rcases hcase with rfl | rfl <;> linarith

/-- Running the sweep over the flattened endpoints of well-separated scenes
whose spans lie within `[d, d * 2]`, starting from such an open interval
`[s, e]`, reproduces `(s, e)` followed by the scenes unchanged. -/
theorem segmentSweep_flatten (d : ℚ) :
    ∀ (l : List Scene) (s e : ℚ),
    d ≤ e - s → e - s ≤ d * 2 →
    (∀ p ∈ l, d ≤ p.2 - p.1 ∧ p.2 - p.1 ≤ d * 2) →
    l.Pairwise (fun a b => a.2 + d * 2 < b.1) →
    (∀ p ∈ l, e + d * 2 < p.1) →
    segmentSweep d (flattenScenes l) s e = (s, e) :: l := by
  intro l
  induction l with
  | nil =>
    intro s e h1 _ _ _ _
    rw [flattenScenes_nil]
    simp only [segmentSweep]
    rw [if_pos h1]
  | cons a rest ih =>
    intro s e h1 h2 hprops hpair hafter
    obtain ⟨hhead, hpair2⟩ := List.pairwise_cons.mp hpair
    have hspana := hprops a (List.mem_cons_self a rest)
    have hgap1 : ¬ (a.1 - e ≤ d * 2) := by
      have := hafter a (List.mem_cons_self a rest)
      intro hcon
      linarith
    rw [flattenScenes_cons]
    simp only [segmentSweep]
    rw [if_neg hgap1, if_pos h1, if_pos hspana.2]
    rw [ih a.1 a.2 hspana.1 hspana.2
      (fun p hp => hprops p (List.mem_cons_of_mem a hp)) hpair2 hhead]
    simp only [List.singleton_append, Prod.mk.eta]

/-- C1 (amended): for every non-empty sorted timestamp list `T` and every
`min_duration > 0`, if additionally every produced interval spans at most
the gap tolerance `min_duration * 2`, then flattening the intervals into a
timestamp list and segmenting again with the same `min_duration` yields the
same intervals.  (Without the span bound the property fails: an interval
longer than the gap tolerance is split into its two endpoints and both
halves are dropped — see the counterexample.) -/
theorem c1_idempotence_bounded (T : List ℚ) (d : ℚ) (hne : T ≠ [])
    (hsort : T.Sorted (· ≤ ·)) (hd : 0 < d)
    (hspan : ∀ p ∈ create_scene_segments T d, p.2 - p.1 ≤ d * 2) :
    create_scene_segments (flattenScenes (create_scene_segments T d)) d
      = create_scene_segments T d := by
  obtain ⟨hdur, hpair⟩ := create_scene_segments_facts T d
  cases hout : create_scene_segments T d with
  | nil => rfl
  | cons a rest =>
    rw [hout] at hdur hpair hspan
    have hsortedf : (flattenScenes (a :: rest)).Sorted (· ≤ ·) :=
      flattenScenes_sorted d hd _ hdur hpair
    unfold create_scene_segments
    rw [show pySort (flattenScenes (a :: rest)) = flattenScenes (a :: rest) from
      List.Sorted.insertionSort_eq hsortedf]
    rw [flattenScenes_cons]
    obtain ⟨hhead, hpair2⟩ := List.pairwise_cons.mp hpair
    have hspana : d ≤ a.2 - a.1 := hdur a (List.mem_cons_self a rest)
    have hspana2 : a.2 - a.1 ≤ d * 2 := hspan a (List.mem_cons_self a rest)
    show segmentSweep d (a.2 :: flattenScenes rest) a.1 a.1 = a :: rest
    simp only [segmentSweep]
    rw [if_pos (by linarith : a.2 - a.1 ≤ d * 2)]
    rw [segmentSweep_flatten d rest a.1 a.2 hspana hspana2
      (fun p hp => ⟨hdur p (List.mem_cons_of_mem a hp), hspan p (List.mem_cons_of_mem a hp)⟩)
      hpair2 hhead]

/-- C1 counterexample: the timestamp list `[0, 1.5, 3]` with
`min_duration = 1` is non-empty, sorted, and has positive duration, yet
segmenting it yields `[(0, 3)]` while resegmenting the flattened endpoints
`[0, 3]` yields `[]` — the claim as stated is false. -/
theorem c1_counterexample :
    ([0, mkRat 3 2, 3] : List ℚ) ≠ [] ∧
    ([0, mkRat 3 2, 3] : List ℚ).Sorted (· ≤ ·) ∧
    (0 : ℚ) < 1 ∧
    create_scene_segments (flattenScenes (create_scene_segments [0, mkRat 3 2, 3] 1)) 1
      ≠ create_scene_segments [0, mkRat 3 2, 3] 1 := by
  with_unfolding_all decide

/-- C1 witness: the amended idempotence at `T = [0, 1, 2]`,
`min_duration = 1`, where the single output interval `(0, 2)` spans exactly
the gap tolerance. -/
theorem c1_witness :
    create_scene_segments (flattenScenes (create_scene_segments [0, 1, 2] 1)) 1
      = create_scene_segments [0, 1, 2] 1 :=
  c1_idempotence_bounded [0, 1, 2] 1 (List.cons_ne_nil 0 [1, 2]) (by decide) (by decide)
    (by with_unfolding_all decide)

/-! ## Basic strategy and credit filtering -/

/-- C9: monotonicity of the basic strategy in the luminance threshold — for
every line list and thresholds `t1 ≤ t2`, the basic strategy selects at
least as many timestamps at `t2` as at `t1`. -/
theorem c9_basic_monotone (lines : List AnalysisLine) (t1 t2 : ℤ) (h : t1 ≤ t2) :
    (extract_basic_night_timestamps lines t1).length
      ≤ (extract_basic_night_timestamps lines t2).length := by
  induction lines with
  | nil => simp [extract_basic_night_timestamps]
  | cons ln rest ih =>
    simp only [extract_basic_night_timestamps] at ih ⊢
    rw [List.filterMap_cons, List.filterMap_cons]
    cases hsi : ln.showinfo with
    | none => simpa using ih
    | some p =>
      obtain ⟨t, luma⟩ := p
      by_cases h1 : (luma : ℤ) < t1
      · have h2 : (luma : ℤ) < t2 := lt_of_lt_of_le h1 h
        simp only [h1, h2, if_true, List.length_cons]
        exact Nat.succ_le_succ ih
      · by_cases h2 : (luma : ℤ) < t2
        · simp only [h1, h2, if_true, if_false, List.length_cons]
          exact le_trans ih (Nat.le_succ _)
        · simp only [h1, h2, if_false]
          exact ih

/-- C9 witness: one frame of luminance 25 is not selected at threshold 20
but is at threshold 30. -/
theorem c9_witness :
    (extract_basic_night_timestamps [⟨some (0, 25), none, none⟩] 20).length
      ≤ (extract_basic_night_timestamps [⟨some (0, 25), none, none⟩] 30).length :=
  c9_basic_monotone [⟨some (0, 25), none, none⟩] 20 30 (by decide)

theorem filter_credits_sublist (scenes text_regions : List Scene) (video_duration : ℚ) :
    (filter_credits_from_scenes scenes text_regions video_duration).Sublist scenes := by
  unfold filter_credits_from_scenes
  split_ifs with h
  · exact List.Sublist.refl scenes
  · exact List.filter_sublist scenes

/-- C8: the output of `filter_credits_from_scenes` is always a subsequence
of the input scene list (original order preserved), and an empty
credit-region list passes the scenes through unchanged. -/
theorem c8_credit_filter_subsequence (scenes text_regions : List Scene)
    (video_duration : ℚ) :
    (filter_credits_from_scenes scenes text_regions video_duration).Sublist scenes ∧
    filter_credits_from_scenes scenes [] video_duration = scenes := by
  refine ⟨filter_credits_sublist scenes text_regions video_duration, ?_⟩
  unfold filter_credits_from_scenes
  rw [if_pos rfl]

/-- C5: a scene of the input is missing from the output of
`filter_credits_from_scenes` exactly when it overlaps some derived credit
region under the test `not (scene_end ≤ credit_start or
scene_start ≥ credit_end)`; and scenes are never trimmed — the output is a
subsequence of the input, each member whole. -/
theorem c5_credit_overlap_iff (scenes text_regions : List Scene)
    (video_duration : ℚ) (sc : Scene) (hsc : sc ∈ scenes) :
    (sc ∉ filter_credits_from_scenes scenes text_regions video_duration ↔
      ∃ c ∈ allCredits text_regions video_duration,
        ¬(sc.2 ≤ c.1 ∨ c.2 ≤ sc.1)) ∧
    (filter_credits_from_scenes scenes text_regions video_duration).Sublist scenes := by
  refine ⟨?_, filter_credits_sublist scenes text_regions video_duration⟩
  unfold filter_credits_from_scenes
  split_ifs with h
  · subst h
    simp only [hsc, not_true_eq_false, false_iff]
    rintro ⟨c, hc, _⟩
    simp [allCredits, openingCandidates, closingCandidates, merge_regions] at hc
  · have hmem : sc ∈ scenes.filter
        (fun sc => !(overlapsCredit sc (allCredits text_regions video_duration)))
        ↔ overlapsCredit sc (allCredits text_regions video_duration) = false := by
      simp [List.mem_filter, hsc]
    constructor
    · intro hout
      have hov : overlapsCredit sc (allCredits text_regions video_duration) = true := by
        by_contra hno
        exact hout (hmem.mpr (Bool.eq_false_iff.mpr hno))
      rw [overlapsCredit, List.any_eq_true] at hov
      obtain ⟨c, hc, hcb⟩ := hov
      refine ⟨c, hc, ?_⟩
      intro hor
      rcases hor with h1 | h1 <;> simp [h1] at hcb
    · rintro ⟨c, hc, hno⟩
      rw [not_or] at hno
      intro hout
      have hov : overlapsCredit sc (allCredits text_regions video_duration) = true := by
        rw [overlapsCredit, List.any_eq_true]
        exact ⟨c, hc, by simp [hno.1, hno.2]⟩
      rw [hmem.mp hout] at hov
      cases hov

/-- C5 witness: with credits derived from text regions `(2,6)` (opening) and
`(90,95)` (closing) in a 100 s video, the scene `(2,5)` is dropped exactly
because it overlaps the region `(2,6)`. -/
theorem c5_witness :
    ((((2 : ℚ), (5 : ℚ)) : Scene) ∉
        filter_credits_from_scenes [(12, 20), (2, 5)] [(2, 6), (90, 95)] 100 ↔
      ∃ c ∈ allCredits [(2, 6), (90, 95)] 100,
        ¬((5 : ℚ) ≤ c.1 ∨ c.2 ≤ (2 : ℚ))) ∧
    (filter_credits_from_scenes [(12, 20), (2, 5)] [(2, 6), (90, 95)] 100).Sublist
      [(12, 20), (2, 5)] :=
  c5_credit_overlap_iff [(12, 20), (2, 5)] [(2, 6), (90, 95)] 100 (2, 5) (by decide)

/-! ## Audio-correlated strategy -/

/-- The code's Boolean audio dispatch agrees with the spec's criterion. -/
theorem audioMatches_iff (mode : AudioMode) (rms qthr lthr : ℚ) :
    audioMatches mode rms qthr lthr = true ↔ audioCriterionSpec mode rms qthr lthr := by
  cases mode <;> simp [audioMatches, audioCriterionSpec]

/-- C7: a paired frame's timestamp is emitted by the audio-correlated
strategy iff the frame is dark and its audio level matches the configured
mode with strict comparisons; in particular the spec's Scenario D holds —
a dark frame with RMS −50 under quiet threshold −40 is selected in `quiet`
mode and not selected in `loud` mode. -/
theorem c7_audio_mode_selection :
    (∀ (lines : List AnalysisLine) (thr : ℤ) (qthr lthr : ℚ) (mode : AudioMode) (t : ℚ),
      t ∈ extract_audio_correlated_timestamps lines thr qthr lthr mode ↔
        ∃ f ∈ audioFrameData lines, f.timestamp = t ∧ (f.luma : ℤ) < thr ∧
          audioCriterionSpec mode f.audio_rms qthr lthr) ∧
    (10 : ℚ) ∈ extract_audio_correlated_timestamps scenDlines 30 (-40) (-10) AudioMode.quiet ∧
    (10 : ℚ) ∉ extract_audio_correlated_timestamps scenDlines 30 (-40) (-10) AudioMode.loud := by
  refine ⟨?_, by with_unfolding_all decide, by with_unfolding_all decide⟩
  intro lines thr qthr lthr mode t
  unfold extract_audio_correlated_timestamps
  rw [List.mem_filterMap]
  constructor
  · rintro ⟨f, hf, hg⟩
    split_ifs at hg with hP
    exact ⟨f, hf, Option.some.inj hg, hP.1,
      (audioMatches_iff mode f.audio_rms qthr lthr).mp hP.2⟩
  · rintro ⟨f, hf, rfl, hdark, hcrit⟩
    refine ⟨f, hf, ?_⟩
    rw [if_pos ⟨hdark, (audioMatches_iff mode f.audio_rms qthr lthr).mpr hcrit⟩]

/-! ## Establishing-shot strategy -/

/-- Members of `edge_values` are strictly positive by construction. -/
theorem edgeValues_pos {lines : List AnalysisLine} {v : ℚ}
    (hv : v ∈ edgeValues lines) : 0 < v := by
  unfold edgeValues at hv
  rw [List.mem_filterMap] at hv
  obtain ⟨f, _, hf⟩ := hv
  split_ifs at hf with h0
  exact (Option.some.inj hf) ▸ h0

/-- When some frame carries a positive edge value, the derived threshold is
strictly positive — exactly the condition the code's gate tests. -/
theorem edgeThreshold_pos {lines : List AnalysisLine}
    (hne : edgeValues lines ≠ []) : 0 < edgeThreshold lines := by
  unfold edgeThreshold
  rw [if_neg hne]
  have hsum : 0 < (edgeValues lines).sum :=
    List.sum_pos _ (fun v hv => edgeValues_pos hv) hne
  have hlen : 0 < ((edgeValues lines).length : ℚ) := by
    exact_mod_cast List.length_pos.mpr hne
  have hq : (0 : ℚ) < mkRat 6 5 := by decide
  exact mul_pos (div_pos hsum hlen) hq

/-- C4: the establishing strategy's edge threshold equals 1.2 times the mean
of the strictly positive edge complexities; when no frame has a positive
edge value the gate is disabled; and a frame's timestamp is emitted iff the
frame is dark and (the gate is disabled or its edge complexity reaches the
threshold). -/
theorem c4_establishing_selection (lines : List AnalysisLine) (thr : ℤ) :
    (edgeValues lines ≠ [] →
      edgeThreshold lines
        = (mkRat 6 5) * ((edgeValues lines).sum / ((edgeValues lines).length : ℚ))) ∧
    (∀ t : ℚ, t ∈ extract_establishing_shot_timestamps lines thr ↔
      ∃ f ∈ establishingFrames lines, f.timestamp = t ∧ (f.luma : ℤ) < thr ∧
        (edgeValues lines = [] ∨ edgeThreshold lines ≤ f.edges)) := by
  constructor
  · intro hne
    unfold edgeThreshold
    rw [if_neg hne]
    exact mul_comm _ _
  · intro t
    unfold extract_establishing_shot_timestamps
    rw [List.mem_filterMap]
    have hcond : ∀ f : EFrame,
        ((if (f.luma : ℤ) < thr ∧
            (if 0 < edgeThreshold lines then edgeThreshold lines ≤ f.edges else True)
          then some f.timestamp else none) = some t)
        ↔ (f.timestamp = t ∧ (f.luma : ℤ) < thr ∧
            (edgeValues lines = [] ∨ edgeThreshold lines ≤ f.edges)) := by
      intro f
      by_cases hv : edgeValues lines = []
      · have h0 : edgeThreshold lines = 0 := by
          unfold edgeThreshold
          rw [if_pos hv]
        rw [h0]
        simp only [lt_self_iff_false, if_false, and_true]
        constructor
        · intro hg
          split_ifs at hg with hd
          exact ⟨Option.some.inj hg, hd, Or.inl hv⟩
        · rintro ⟨rfl, hd, _⟩
          rw [if_pos hd]
      · have hpos : 0 < edgeThreshold lines := edgeThreshold_pos hv
        simp only [if_pos hpos]
        constructor
        · intro hg
          split_ifs at hg with hd
          exact ⟨Option.some.inj hg, hd.1, Or.inr hd.2⟩
        · rintro ⟨rfl, hd, hor⟩
          rcases hor with hcon | hle
          · exact absurd hcon hv
          · rw [if_pos ⟨hd, hle⟩]
    constructor
    · rintro ⟨f, hf, hg⟩
      obtain ⟨h1, h2, h3⟩ := (hcond f).mp hg
      exact ⟨f, hf, h1, h2, h3⟩
    · rintro ⟨f, hf, h1, h2, h3⟩
      exact ⟨f, hf, (hcond f).mpr ⟨h1, h2, h3⟩⟩

/-- C4 witness: on concrete lines with positive edge data, the threshold
equation and the selection criterion instantiated at `t = 1`. -/
theorem c4_witness :
    edgeThreshold c4lines
      = (mkRat 6 5) * ((edgeValues c4lines).sum / ((edgeValues c4lines).length : ℚ)) ∧
    ((1 : ℚ) ∈ extract_establishing_shot_timestamps c4lines 30 ↔
      ∃ f ∈ establishingFrames c4lines, f.timestamp = 1 ∧ (f.luma : ℤ) < 30 ∧
        (edgeValues c4lines = [] ∨ edgeThreshold c4lines ≤ f.edges)) :=
  ⟨(c4_establishing_selection c4lines 30).1 (by with_unfolding_all decide),
   (c4_establishing_selection c4lines 30).2 1⟩

/-! ## The audio pairing window -/

/-- A hit of the audio window anchored at line `j` is an audio line at some
index `k ≥ j − 5` inside the file. -/
theorem audioWindow_eq_some {lines : List AnalysisLine} {j : ℕ} {a : ℚ}
    (h : audioWindow lines j = some a) :
    ∃ k, j ≤ k + 5 ∧ k < lines.length ∧ (lineAt lines k).audioRms = some a := by
  unfold audioWindow at h
  obtain ⟨k, hk, hfk⟩ := List.exists_of_findSome?_eq_some h
  rw [List.mem_range'_1] at hk
  refine ⟨k, Nat.sub_le_iff_le_add.mp hk.1, ?_, hfk⟩
  omega

/-- Every frame the pairing loop emits owes its audio value to a window hit
at some scanned line `j`, and its frame data to the initial pending state or
to a showinfo line at some scanned index `i ≤ j`. -/
theorem audioPairLoop_mem (lines : List AnalysisLine) :
    ∀ (idxs : List ℕ) (st : Option (ℚ × ℕ)), idxs.Pairwise (· ≤ ·) →
    ∀ f ∈ audioPairLoop lines idxs st,
    ∃ j ∈ idxs, audioWindow lines j = some f.audio_rms ∧
      (st = some (f.timestamp, f.luma) ∨
        ∃ i ∈ idxs, i ≤ j ∧ (lineAt lines i).showinfo = some (f.timestamp, f.luma)) := by
  intro idxs
  induction idxs with
  | nil =>
    intro st _ f hf
    exact absurd hf (List.not_mem_nil f)
  | cons i rest ih =>
    intro st hpw f hf
    obtain ⟨hhead, hpw2⟩ := List.pairwise_cons.mp hpw
    simp only [audioPairLoop] at hf
    cases hsi : (lineAt lines i).showinfo with
    | some p =>
      obtain ⟨t, l⟩ := p
      simp only [hsi] at hf
      cases hw : audioWindow lines i with
      | some rms =>
        simp only [hw] at hf
        rcases List.mem_cons.mp hf with rfl | hf2
        · exact ⟨i, List.mem_cons_self i rest, hw,
            Or.inr ⟨i, List.mem_cons_self i rest, le_rfl, hsi⟩⟩
        · obtain ⟨j, hj, hwj, hor⟩ := ih none hpw2 f hf2
          rcases hor with hcon | ⟨i2, hi2, hij, hsi2⟩
          · exact Option.noConfusion hcon
          · exact ⟨j, List.mem_cons_of_mem i hj, hwj,
              Or.inr ⟨i2, List.mem_cons_of_mem i hi2, hij, hsi2⟩⟩
      | none =>
        simp only [hw] at hf
        obtain ⟨j, hj, hwj, hor⟩ := ih (some (t, l)) hpw2 f hf
        refine ⟨j, List.mem_cons_of_mem i hj, hwj, ?_⟩
        rcases hor with hcon | ⟨i2, hi2, hij, hsi2⟩
        · refine Or.inr ⟨i, List.mem_cons_self i rest, hhead j hj, ?_⟩
          rw [hsi, hcon]
        · exact Or.inr ⟨i2, List.mem_cons_of_mem i hi2, hij, hsi2⟩
    | none =>
      cases st with
      | some p =>
        obtain ⟨t, l⟩ := p
        simp only [hsi] at hf
        cases hw : audioWindow lines i with
        | some rms =>
          simp only [hw] at hf
          rcases List.mem_cons.mp hf with rfl | hf2
          · exact ⟨i, List.mem_cons_self i rest, hw, Or.inl rfl⟩
          · obtain ⟨j, hj, hwj, hor⟩ := ih none hpw2 f hf2
            rcases hor with hcon | ⟨i2, hi2, hij, hsi2⟩
            · exact Option.noConfusion hcon
            · exact ⟨j, List.mem_cons_of_mem i hj, hwj,
                Or.inr ⟨i2, List.mem_cons_of_mem i hi2, hij, hsi2⟩⟩
        | none =>
          simp only [hw] at hf
          obtain ⟨j, hj, hwj, hor⟩ := ih (some (t, l)) hpw2 f hf
          refine ⟨j, List.mem_cons_of_mem i hj, hwj, ?_⟩
          rcases hor with hcon | ⟨i2, hi2, hij, hsi2⟩
          · exact Or.inl hcon
          · exact Or.inr ⟨i2, List.mem_cons_of_mem i hi2, hij, hsi2⟩
      | none =>
        simp only [hsi] at hf
        obtain ⟨j, hj, hwj, hor⟩ := ih none hpw2 f hf
        refine ⟨j, List.mem_cons_of_mem i hj, hwj, ?_⟩
        rcases hor with hcon | ⟨i2, hi2, hij, hsi2⟩
        · exact Option.noConfusion hcon
        · exact Or.inr ⟨i2, List.mem_cons_of_mem i hi2, hij, hsi2⟩

/-- C3 (amended): the audio search window is re-anchored at every line
scanned while a frame is pending, so a frame with no audio line within the
±5-line window of its own line can still be paired by an audio line further
down.  What does hold: if every frame line carrying timestamp `t` has no
audio RMS line anywhere at index ≥ its own index − 5, then `t` never
appears in the output. -/
theorem c3_unpaired_frame_dropped (lines : List AnalysisLine) (thr : ℤ)
    (qthr lthr : ℚ) (mode : AudioMode) (t : ℚ)
    (h : ∀ i < lines.length, (lineAt lines i).showinfo.map Prod.fst = some t →
         ∀ k < lines.length, i ≤ k + 5 → (lineAt lines k).audioRms = none) :
    t ∉ extract_audio_correlated_timestamps lines thr qthr lthr mode := by
  intro hmem
  unfold extract_audio_correlated_timestamps at hmem
  rw [List.mem_filterMap] at hmem
  obtain ⟨f, hf, hg⟩ := hmem
  split_ifs at hg with hP
  have hft : f.timestamp = t := Option.some.inj hg
  obtain ⟨j, hj, hwj, hor⟩ := audioPairLoop_mem lines (List.range lines.length) none
    ((List.pairwise_lt_range lines.length).imp (fun hab => le_of_lt hab)) f hf
  rcases hor with hcon | ⟨i, hi, hij, hsi⟩
  · exact Option.noConfusion hcon
  · obtain ⟨k, hk5, hklen, hkval⟩ := audioWindow_eq_some hwj
    have hilen : i < lines.length := List.mem_range.mp hi
    have hmap : (lineAt lines i).showinfo.map Prod.fst = some t := by
      rw [hsi, hft]
      rfl
    have hnone := h i hilen hmap k hklen (le_trans hij hk5)
    rw [hnone] at hkval
    exact Option.noConfusion hkval

/-- C3 counterexample: in `c3lines` the frame line at index 0 (timestamp 10)
has no audio RMS line within its ±5-line window (indices 0–5 all read
`none`), yet timestamp 10 appears in the output — the audio line at index 7
is found by the window re-anchored at a later scanned line, so the claim as
stated is false. -/
theorem c3_counterexample :
    (lineAt c3lines 0).showinfo = some (10, 0) ∧
    (∀ j, j ≤ 5 → (lineAt c3lines j).audioRms = none) ∧
    (10 : ℚ) ∈ extract_audio_correlated_timestamps c3lines 1 (-40) (-10) AudioMode.quiet := by
  refine ⟨rfl, ?_, by with_unfolding_all decide⟩
  intro j hj
  interval_cases j <;> rfl

/-- C3 witness: in a file whose two lines contain one frame line and no
audio line at all, the frame's timestamp is absent from the output. -/
theorem c3_witness :
    (10 : ℚ) ∉ extract_audio_correlated_timestamps c3wlines 1 (-40) (-10) AudioMode.quiet :=
  c3_unpaired_frame_dropped c3wlines 1 (-40) (-10) AudioMode.quiet 10 (by decide)
